import Mathlib

/-!
Verification of the co-curl concurrent downloader (`src/co_curl.cpp`).

The source is shallowly embedded: filesystem contents become explicit
state (`PartFile`, `FS`), the network becomes an environment function,
and the control flow of `download`, `check_files`, `merge_files` and the
post-parse portion of `main` is transcribed into executable Lean
functions.  Byte counts are `Nat`; C++ `long long`/`curl_off_t` values
that can be negative sentinels (`-1`) are `Int`.  The `1E6` tolerance and
`1E6` chunk-scale in the source are `double` literals whose value is the
exact integer 1000000, and all sizes handled by the claims are far below
2^53, so the `double` comparisons are modelled exactly on integers.
-/

namespace CoCurl

/-- `constexpr int MIN_FILE_SIZE_FOR_PARALLEL = 1E3` (line 32). -/
def MIN_FILE_SIZE_FOR_PARALLEL : Int := 1000

/-- `constexpr int NUM_TRY_DOWNLOAD = 5` (line 33). -/
def NUM_TRY_DOWNLOAD : Nat := 5

/-- One part file on disk: its byte content, and whether an `ifstream`
open of it succeeds (a file can exist yet be unreadable). -/
structure PartFile where
  content : List Nat
  openable : Bool
deriving DecidableEq

/-- Filesystem state relevant to one run: the part files
`<output>.part0 .. <output>.part(N-1)` (position `i` in the list is the
file at index `i`, `none` = no file on disk), and the destination file. -/
structure FS where
  parts : List (Option PartFile)
  dest : Option (List Nat)
deriving DecidableEq

/-- What the environment does to one download attempt inside the retry
loop of `download` (lines 175-202): `fopen` fails, `curl_easy_perform`
returns a transport error, or the transfer completes (`CURLE_OK`) with
the given HTTP response code. -/
inductive AttemptResult
  | openFail
  | transportFail
  | httpDone (code : Int)
deriving DecidableEq

/-- The retry loop of `download` (lines 175-202), iterating attempt
index `i` with `fuel = NUM_TRY_DOWNLOAD - i` iterations left.  State
tracked: whether a file currently exists at the part path (the path is
assumed free before the first attempt) and the attempt count.  An
`openFail` attempt just `continue`s; a `transportFail` attempt removes
the partially written file and `continue`s; a completed transfer
`break`s after removing the file when the HTTP code is `>= 400`
(lines 186-201).  Returns (attempts issued, file present at exit). -/
def downloadGo (env : Nat → AttemptResult) : Nat → Nat → Bool → Nat × Bool
  | 0, i, f => (i, f)
  | fuel + 1, i, f =>
    match env i with
    | .openFail => downloadGo env fuel (i + 1) f
    | .transportFail => downloadGo env fuel (i + 1) false
    | .httpDone code => (i + 1, if 400 ≤ code then false else true)

/-- `download` (lines 152-210): run the retry loop from attempt 0 with
no file at the part path. -/
def download (env : Nat → AttemptResult) : Nat × Bool :=
  downloadGo env NUM_TRY_DOWNLOAD 0 false

/-- Loop body accumulator of `check_files` (lines 213-237).  `P` is
`num_part`, `i` the running index, `a` the `all_present` flag
(initially 1).  Element `none` models a part file that does not exist:
`fs::is_empty` on a nonexistent path throws `filesystem_error`, which
is modelled as `Except.error`.  For a present file of size `sz`:
`fs::is_empty` true (`sz = 0`) sets the flag to 0, then the size test
`file_size + 1E6 < expected` sets it to -1, each assignment
overwriting the previous value of the flag. -/
def checkGo (P : Nat) (chunk last : Int) : Nat → Int → List (Option Nat) → Except Unit Int
  | _, a, [] => .ok a
  | _, _, none :: _ => .error ()
  | i, a, some sz :: rest =>
    let a1 : Int := if sz = 0 then 0 else a
    let a2 : Int := if (sz : Int) + 1000000 < (if i ≠ P - 1 then chunk else last) then -1 else a1
    checkGo P chunk last (i + 1) a2 rest

/-- `check_files` (lines 213-237) over the list of part-file sizes
(`none` = file missing).  Result 1 = Complete, 0 = Missing,
-1 = PresentButUndersized; `Except.error` = uncaught
`std::filesystem::filesystem_error`. -/
def check_files (sizes : List (Option Nat)) (chunk last : Int) : Except Unit Int :=
  checkGo sizes.length chunk last 0 1 sizes

/-- The same flag computation as `checkGo` restricted to part sets in
which every file exists; used to state what `check_files` returns. -/
def verdictGo (P : Nat) (chunk last : Int) : Nat → Int → List Nat → Int
  | _, a, [] => a
  | i, a, sz :: rest =>
    let a1 : Int := if sz = 0 then 0 else a
    let a2 : Int := if (sz : Int) + 1000000 < (if i ≠ P - 1 then chunk else last) then -1 else a1
    verdictGo P chunk last (i + 1) a2 rest

/-- Part `k` of a `P`-part set with sizes `xs` fails the size test of
`check_files` line 225/230: more than the 1 MB tolerance smaller than
its expected size (chunk size for non-last indices, `last` for the last
index). -/
def underAt (P : Nat) (chunk last : Int) (xs : List Nat) (k : Nat) : Prop :=
  (xs.getD k 0 : Int) + 1000000 < (if k ≠ P - 1 then chunk else last)

instance (P : Nat) (chunk last : Int) (xs : List Nat) (k : Nat) :
    Decidable (underAt P chunk last xs k) := by
  unfold underAt; infer_instance

/-- Whether the `ifstream` open of a part file in `merge_files`
(line 256) succeeds: the file must exist and be readable. -/
def canOpen : Option PartFile → Bool
  | none => false
  | some pf => pf.openable

/-- Content contributed by a part file (empty if absent). -/
def contentOf : Option PartFile → List Nat
  | none => []
  | some pf => pf.content

/-- Concatenation `data_0 ++ data_1 ++ ... ++ data_(P-1)` of part contents. -/
def concatContents (parts : List (Option PartFile)) : List Nat :=
  parts.foldr (fun p acc => contentOf p ++ acc) []

/-- Bytes the destination stream actually receives from the loop of
`merge_files` when every part opens: the concatenation of the parts'
contents up to (excluding) the first empty part.  An empty part makes
`output_file << part_file.rdbuf()` insert zero characters, which sets
`failbit` on the destination stream, after which every later insertion
is silently suppressed. -/
def writtenContents : List (Option PartFile) → List Nat
  | [] => []
  | p :: rest => if (contentOf p).isEmpty then [] else contentOf p ++ writtenContents rest

/-- Loop of `merge_files` (lines 251-267): open each part in index
order and insert its stream buffer into the destination (line 264);
abort on the first part that cannot be opened.  `good` is the state of
the destination stream: per the `operator<<(basic_streambuf*)`
contract, inserting zero characters (an empty part) calls
`setstate(failbit)`, and once the stream has failed, later insertions
write nothing — while `normal_exit` is never informed.  Returns
(`normal_exit`, destination bytes written so far). -/
def mergeGo : List (Option PartFile) → List Nat → Bool → Bool × List Nat
  | [], acc, _ => (true, acc)
  | p :: rest, acc, good =>
    if canOpen p then
      if good then
        if (contentOf p).isEmpty then mergeGo rest acc false
        else mergeGo rest (acc ++ contentOf p) true
      else mergeGo rest acc false
    else (false, acc)

/-- `merge_files` (lines 240-271).  `destOk` is whether the
create/truncate of the destination `ofstream` succeeds (line 245); if
not, the function returns failure before the loop with nothing written.
Returns (`normal_exit`, destination file content, `none` = not
created). -/
def merge_files (destOk : Bool) (parts : List (Option PartFile)) : Bool × Option (List Nat) :=
  if destOk then
    ((mergeGo parts [] true).1, some (mergeGo parts [] true).2)
  else (false, none)

/-- The part files `check_files`/`merge_files` iterate over: indices
`0 .. np-1` of the filesystem (lines 217, 251). -/
def partsWindow (np : Nat) (parts : List (Option PartFile)) : List (Option PartFile) :=
  (List.range np).map (fun i => parts.getD i none)

/-- Sizes of the part files at indices `0 .. np-1`. -/
def sizesOf (np : Nat) (fs : FS) : List (Option Nat) :=
  (partsWindow np fs.parts).map (Option.map (fun pf => pf.content.length))

/-- Effect of the cleanup loop at lines 554-557: `std::remove` of every
part file at indices `0 .. np-1` (a remove of an absent file is a
no-op). -/
def deleteWindow (np : Nat) (parts : List (Option PartFile)) : List (Option PartFile) :=
  (parts.take np).map (fun _ => none) ++ parts.drop np

/-- The check / merge / remove block of `main` (lines 540-562), entered
when `mode` is 0 or 2.  `check_files` classifies parts 0..np-1 (its
filesystem exception propagates as `Except.error`); a nonzero status
runs `merge_files`; on success with status 1 every part file is
removed, with status -1 the parts are kept; on merge failure or a zero
(Missing) status `normal_exit` is false and the destination file is
removed (lines 559-562).  Returns the resulting filesystem and
`normal_exit`. -/
def checkMergeRemove (destOk : Bool) (np : Nat) (chunk last : Int) (fs : FS) :
    Except Unit (FS × Bool) :=
  match check_files (sizesOf np fs) chunk last with
  | .error e => .error e
  | .ok status =>
    if status ≠ 0 then
      if (merge_files destOk (partsWindow np fs.parts)).1 then
        if status = 1 then
          .ok (⟨deleteWindow np fs.parts, (merge_files destOk (partsWindow np fs.parts)).2⟩, true)
        else
          .ok (⟨fs.parts, (merge_files destOk (partsWindow np fs.parts)).2⟩, true)
      else
        .ok (⟨fs.parts, none⟩, false)
    else
      .ok (⟨fs.parts, none⟩, false)

/-- Inclusive byte range of part `i` (lines 517-519 and 531-532):
`start = i*chunk_size`, `end = start + chunk_size - 1` except the last
part, whose `end` is forced to `file_size - 1`. -/
def partRange (fsz np chunk i : Int) : Int × Int :=
  (i * chunk, if i = np - 1 then fsz - 1 else i * chunk + chunk - 1)

/-- The plan of `P` byte ranges for total size `S` and chunk size `C`
produced by the download loop of `main`. -/
def plan (S C P : Nat) : List (Int × Int) :=
  (List.range P).map (fun i : Nat => partRange (S : Int) (P : Int) (C : Int) (i : Int))

/-- Byte `b` belongs to the inclusive range of part `i`. -/
def inRange (fsz np chunk i b : Int) : Prop :=
  (partRange fsz np chunk i).1 ≤ b ∧ b ≤ (partRange fsz np chunk i).2

/-- Handler of option `-np, --num-part` (lines 325-334): the parsed
value is taken as an absolute value; zero is replaced by the `-1`
use-default sentinel with a warning (not an error); `chunk_size` is
reset to `-1`.  Returns (`num_part`, `chunk_size`). -/
def parseNumPartOpt (v : Int) : Int × Int :=
  ((if v.natAbs = 0 then -1 else (v.natAbs : Int)), -1)

/-- Handler of option `-cs, --chunk-size` (lines 341-350): the parsed
value is taken as an absolute value; a value below 10 is discarded
(replaced by `-1`) with a warning (not an error); `num_part` is reset
to `-1`.  Returns (`num_part`, `chunk_size`). -/
def parseChunkSizeOpt (v : Int) : Int × Int :=
  (-1, (if (v.natAbs : Int) < 10 then -1 else (v.natAbs : Int)))

/-- Handler of option `-s, --single-part` (line 360): the parsed value
is taken as an absolute value, so the `part_index < 0` error branch at
line 361 is unreachable. -/
def parseSinglePart (v : Int) : Int :=
  (v.natAbs : Int)

/-- Small-file override of `mode` (lines 438-442). -/
def thresholdMode (fsz mode : Int) : Int :=
  if fsz < MIN_FILE_SIZE_FOR_PARALLEL then -1 else mode

/-- Small-file override of `num_part` (line 441). -/
def thresholdNp (fsz np : Int) : Int :=
  if fsz < MIN_FILE_SIZE_FOR_PARALLEL then 1 else np

/-- Small-file override of `chunk_size` (line 440). -/
def thresholdCs (fsz cs : Int) : Int :=
  if fsz < MIN_FILE_SIZE_FOR_PARALLEL then -1 else cs

/-- Split-parameter resolution (lines 444-454), `num_part` result:
with no chunk size given, `num_part` defaults to `num_thread`; with a
chunk size given and no part count, `num_part = file_size/(cs*1E6)+1`;
the remaining branch (both given) only prints an error and keeps the
values (unreachable after parsing, which clears one of the two). -/
def splitNp (fsz nth np cs : Int) : Int :=
  if cs < 0 then (if np < 0 then nth else np)
  else if np < 0 then fsz / (cs * 1000000) + 1
  else np

/-- Split-parameter resolution (lines 444-454), `chunk_size` result in
bytes: with no chunk size given, `chunk_size = file_size/num_part`;
with a chunk size given and no part count it is scaled from MB by
`*= 1E6`. -/
def splitCs (fsz nth np cs : Int) : Int :=
  if cs < 0 then fsz / (if np < 0 then nth else np)
  else if np < 0 then cs * 1000000
  else cs

/-- The part count in effect after the threshold override and
split-parameter resolution. -/
def effNumPart (fsz nth np cs : Int) : Int :=
  splitNp fsz nth (thresholdNp fsz np) (thresholdCs fsz cs)

/-- The chunk size (bytes) in effect after the threshold override and
split-parameter resolution. -/
def effChunkSize (fsz nth np cs : Int) : Int :=
  splitCs fsz nth (thresholdNp fsz np) (thresholdCs fsz cs)

/-- Outcome of one run of `main` past argument parsing. -/
inductive RunOutcome
  | probeFail
  | invalidIndex
  | crashed
  | finished (ok : Bool)
deriving DecidableEq

/-- The ranged GETs issued by the download section of `main`
(lines 503-536) for the given mode: the whole file for mode -1, all
parts for mode 0, one part for mode 1, none for mode 2. -/
def downloadRanges (fsz np chunk mode pi : Int) : List (Int × Int) :=
  if mode = -1 then [(0, fsz - 1)]
  else if mode = 0 then
    (List.range np.toNat).map (fun i : Nat => partRange fsz np chunk (i : Int))
  else if mode = 1 then [partRange fsz np chunk pi]
  else []

/-- Filesystem after the download section of `main` (lines 503-536).
`net s e` is the file a `download` call for inclusive range `[s, e]`
eventually leaves on disk (`none` after total failure). -/
def downloadFS (net : Int → Int → Option PartFile) (fsz np chunk mode pi : Int)
    (fs0 : FS) : FS :=
  if mode = -1 then ⟨fs0.parts, (net 0 (fsz - 1)).map (fun pf => pf.content)⟩
  else if mode = 0 then
    ⟨((List.range np.toNat).map (fun i : Nat =>
        net (partRange fsz np chunk (i : Int)).1 (partRange fsz np chunk (i : Int)).2))
      ++ fs0.parts.drop np.toNat, fs0.dest⟩
  else if mode = 1 then
    ⟨fs0.parts.set pi.toNat (net (partRange fsz np chunk pi).1 (partRange fsz np chunk pi).2),
     fs0.dest⟩
  else fs0

/-- The tail of `main` (lines 540-566): the check/merge/remove block
runs only for modes 0 and 2, and determines the exit status; other
modes exit 0 directly. -/
def finishPhase (destOk : Bool) (fsz np chunk mode : Int) (ranges : List (Int × Int))
    (fs1 : FS) : RunOutcome × List (Int × Int) × FS :=
  if mode = 0 ∨ mode = 2 then
    match checkMergeRemove destOk np.toNat chunk (fsz - (np - 1) * chunk) fs1 with
    | .error _ => (.crashed, ranges, fs1)
    | .ok p => (.finished p.2, ranges, p.1)
  else (.finished true, ranges, fs1)

/-- `main` from the size probe onward (lines 436-566).  Inputs are the
parsed configuration (`nth` = `num_thread`, `np0`/`cs0` =
`num_part`/`chunk_size` with `-1` = unset, `mode0`, `pi` =
`part_index`), the probe result `fsz` (the value `get_file_size`
returned), the filesystem before the run and the network/destination
behaviour.  A probe result `<= 0` aborts at line 437; an out-of-range
`part_index` aborts at lines 458-463 before the download section.
Returns (outcome, ranged GETs issued, final filesystem).  The
`num_thread` clamp at line 456 only sizes the OpenMP pool and is not
modelled. -/
def mainPipeline (net : Int → Int → Option PartFile) (destOk : Bool)
    (nth np0 cs0 mode0 pi fsz : Int) (fs0 : FS) : RunOutcome × List (Int × Int) × FS :=
  if fsz ≤ 0 then (.probeFail, [], fs0)
  else if pi > effNumPart fsz nth np0 cs0 - 1 then (.invalidIndex, [], fs0)
  else
    finishPhase destOk fsz (effNumPart fsz nth np0 cs0) (effChunkSize fsz nth np0 cs0)
      (thresholdMode fsz mode0)
      (downloadRanges fsz (effNumPart fsz nth np0 cs0) (effChunkSize fsz nth np0 cs0)
        (thresholdMode fsz mode0) pi)
      (downloadFS net fsz (effNumPart fsz nth np0 cs0) (effChunkSize fsz nth np0 cs0)
        (thresholdMode fsz mode0) pi fs0)

/-! ## Helper lemmas -/

theorem downloadGo_fst_le (env : Nat → AttemptResult) :
    ∀ (fuel i : Nat) (f : Bool), (downloadGo env fuel i f).1 ≤ i + fuel := by
  intro fuel
  induction fuel with
  | zero => intro i f; simp [downloadGo]
  | succ n ih =>
    intro i f
    unfold downloadGo
    cases env i with
    | openFail => exact le_trans (ih (i + 1) f) (by omega)
    | transportFail => exact le_trans (ih (i + 1) false) (by omega)
    | httpDone code =>
      show i + 1 ≤ i + (n + 1)
      omega

theorem downloadGo_all_fail (env : Nat → AttemptResult) :
    ∀ (fuel i : Nat),
      (∀ j, i ≤ j → j < i + fuel → env j = .openFail ∨ env j = .transportFail) →
      downloadGo env fuel i false = (i + fuel, false) := by
  intro fuel
  induction fuel with
  | zero => intro i _; simp [downloadGo]
  | succ n ih =>
    intro i h
    unfold downloadGo
    rcases h i (le_refl i) (by omega) with h0 | h0 <;> rw [h0]
    · rw [show i + (n + 1) = (i + 1) + n from by omega]
      exact ih (i + 1) (fun j hj1 hj2 => h j (by omega) (by omega))
    · rw [show i + (n + 1) = (i + 1) + n from by omega]
      exact ih (i + 1) (fun j hj1 hj2 => h j (by omega) (by omega))

theorem downloadGo_first_http (env : Nat → AttemptResult) (code : Int) :
    ∀ (fuel i : Nat) (f : Bool) (k : Nat), i ≤ k → k < i + fuel →
      (∀ j, i ≤ j → j < k → env j = .openFail ∨ env j = .transportFail) →
      env k = .httpDone code →
      downloadGo env fuel i f = (k + 1, if 400 ≤ code then false else true) := by
  intro fuel
  induction fuel with
  | zero => intro i f k h1 h2 _ _; omega
  | succ n ih =>
    intro i f k h1 h2 hfail hk
    unfold downloadGo
    rcases Nat.eq_or_lt_of_le h1 with heq | hlt
    · subst heq; rw [hk]
    · rcases hfail i (le_refl i) hlt with h0 | h0 <;> rw [h0]
      · exact ih (i + 1) f k hlt (by omega) (fun j hj1 hj2 => hfail j (by omega) hj2) hk
      · exact ih (i + 1) false k hlt (by omega) (fun j hj1 hj2 => hfail j (by omega) hj2) hk

theorem checkGo_map_some (chunk last : Int) (P : Nat) :
    ∀ (xs : List Nat) (i : Nat) (a : Int),
      checkGo P chunk last i a (xs.map some) = .ok (verdictGo P chunk last i a xs) := by
  intro xs
  induction xs with
  | nil => intro i a; simp [checkGo, verdictGo]
  | cons sz rest ih => intro i a; simp only [List.map_cons, checkGo, verdictGo]; exact ih _ _

theorem verdictGo_no_empty_from_neg (chunk last : Int) (P : Nat) :
    ∀ (xs : List Nat) (i : Nat),
      (∀ k, k < xs.length → xs.getD k 0 ≠ 0) →
      verdictGo P chunk last i (-1) xs = -1 := by
  intro xs
  induction xs with
  | nil => intro i _; simp [verdictGo]
  | cons sz rest ih =>
    intro i h
    have h0 : sz ≠ 0 := by simpa using h 0 (by simp)
    simp only [verdictGo, if_neg h0, ite_self]
    exact ih (i + 1) (fun k hk => by simpa using h (k + 1) (by simpa using hk))

theorem verdictGo_no_under (chunk last : Int) (P : Nat) :
    ∀ (xs : List Nat) (i : Nat) (a : Int),
      (∀ k, k < xs.length →
        ¬ ((xs.getD k 0 : Int) + 1000000 < (if i + k ≠ P - 1 then chunk else last))) →
      verdictGo P chunk last i a xs = if 0 ∈ xs then 0 else a := by
  intro xs
  induction xs with
  | nil => intro i a _; simp [verdictGo]
  | cons sz rest ih =>
    intro i a h
    have h0 : ¬ ((sz : Int) + 1000000 < (if i ≠ P - 1 then chunk else last)) := by
      have := h 0 (by simp)
      simpa using this
    simp only [verdictGo, if_neg h0]
    rw [ih (i + 1) _ (fun k hk => by
      have := h (k + 1) (by simpa using hk)
      simpa [Nat.add_assoc, Nat.add_comm 1 k] using this)]
    by_cases hsz : sz = 0
    · subst hsz; simp
    · simp [hsz, List.mem_cons, Ne.symm hsz]

theorem verdictGo_under_last (chunk last : Int) (P : Nat) :
    ∀ (xs : List Nat) (i : Nat) (a : Int),
      (∃ j, j < xs.length ∧
        ((xs.getD j 0 : Int) + 1000000 < (if i + j ≠ P - 1 then chunk else last)) ∧
        (∀ k, k < xs.length → xs.getD k 0 = 0 → k ≤ j)) →
      verdictGo P chunk last i a xs = -1 := by
  intro xs
  induction xs with
  | nil => intro i a h; rcases h with ⟨j, hj, _⟩; simp at hj
  | cons sz rest ih =>
    intro i a h
    rcases h with ⟨j, hjlen, hjunder, hemp⟩
    cases j with
    | zero =>
      have hsz : (sz : Int) + 1000000 < (if i ≠ P - 1 then chunk else last) := by
        simpa using hjunder
      have hrest : ∀ k, k < rest.length → rest.getD k 0 ≠ 0 := by
        intro k hk hk0
        have := hemp (k + 1) (by simpa using hk) (by simpa using hk0)
        omega
      simp only [verdictGo, if_pos hsz]
      exact verdictGo_no_empty_from_neg chunk last P rest (i + 1) hrest
    | succ j' =>
      have hju : (rest.getD j' 0 : Int) + 1000000 <
          (if (i + 1) + j' ≠ P - 1 then chunk else last) := by
        have : i + (j' + 1) = (i + 1) + j' := by omega
        rw [← this]
        simpa using hjunder
      simp only [verdictGo]
      exact ih (i + 1) _ ⟨j', by simpa using hjlen, hju, fun k hk hk0 => by
        have := hemp (k + 1) (by simpa using hk) (by simpa using hk0)
        omega⟩

theorem mergeGo_failed_stream :
    ∀ (parts : List (Option PartFile)) (acc : List Nat),
      (∀ p ∈ parts, canOpen p = true) →
      mergeGo parts acc false = (true, acc) := by
  intro parts
  induction parts with
  | nil => intro acc _; rfl
  | cons p rest ih =>
    intro acc h
    have hp : canOpen p = true := h p (by simp)
    rw [show mergeGo (p :: rest) acc false = mergeGo rest acc false from by
      simp [mergeGo, hp]]
    exact ih acc (fun q hq => h q (by simp [hq]))

theorem mergeGo_all_open :
    ∀ (parts : List (Option PartFile)) (acc : List Nat),
      (∀ p ∈ parts, canOpen p = true) →
      mergeGo parts acc true = (true, acc ++ writtenContents parts) := by
  intro parts
  induction parts with
  | nil => intro acc _; simp [mergeGo, writtenContents]
  | cons p rest ih =>
    intro acc h
    have hp : canOpen p = true := h p (by simp)
    have hrest : ∀ q ∈ rest, canOpen q = true := fun q hq => h q (by simp [hq])
    by_cases he : (contentOf p).isEmpty
    · rw [show mergeGo (p :: rest) acc true = mergeGo rest acc false from by
        simp [mergeGo, hp, he]]
      rw [mergeGo_failed_stream rest acc hrest]
      simp [writtenContents, he]
    · rw [show mergeGo (p :: rest) acc true = mergeGo rest (acc ++ contentOf p) true from by
        simp [mergeGo, hp, he]]
      rw [ih (acc ++ contentOf p) hrest]
      simp [writtenContents, he, List.append_assoc]

theorem mergeGo_first_bad_failed :
    ∀ (pre : List (Option PartFile)) (bad : Option PartFile) (rest : List (Option PartFile))
      (acc : List Nat),
      (∀ p ∈ pre, canOpen p = true) → canOpen bad = false →
      mergeGo (pre ++ bad :: rest) acc false = (false, acc) := by
  intro pre
  induction pre with
  | nil => intro bad rest acc _ hbad; simp [mergeGo, hbad]
  | cons p pre' ih =>
    intro bad rest acc h hbad
    have hp : canOpen p = true := h p (by simp)
    rw [show mergeGo ((p :: pre') ++ bad :: rest) acc false
        = mergeGo (pre' ++ bad :: rest) acc false from by simp [mergeGo, hp]]
    exact ih bad rest acc (fun q hq => h q (by simp [hq])) hbad

theorem mergeGo_first_bad :
    ∀ (pre : List (Option PartFile)) (bad : Option PartFile) (rest : List (Option PartFile))
      (acc : List Nat),
      (∀ p ∈ pre, canOpen p = true) → canOpen bad = false →
      mergeGo (pre ++ bad :: rest) acc true = (false, acc ++ writtenContents pre) := by
  intro pre
  induction pre with
  | nil => intro bad rest acc _ hbad; simp [mergeGo, hbad, writtenContents]
  | cons p pre' ih =>
    intro bad rest acc h hbad
    have hp : canOpen p = true := h p (by simp)
    have hpre2 : ∀ q ∈ pre', canOpen q = true := fun q hq => h q (by simp [hq])
    by_cases he : (contentOf p).isEmpty
    · rw [show mergeGo ((p :: pre') ++ bad :: rest) acc true
          = mergeGo (pre' ++ bad :: rest) acc false from by simp [mergeGo, hp, he]]
      rw [mergeGo_first_bad_failed pre' bad rest acc hpre2 hbad]
      simp [writtenContents, he]
    · rw [show mergeGo ((p :: pre') ++ bad :: rest) acc true
          = mergeGo (pre' ++ bad :: rest) (acc ++ contentOf p) true from by
        simp [mergeGo, hp, he]]
      rw [ih bad rest (acc ++ contentOf p) hpre2 hbad]
      simp [writtenContents, he, List.append_assoc]

theorem writtenContents_of_no_empty :
    ∀ parts : List (Option PartFile),
      (∀ p ∈ parts, (contentOf p).isEmpty = false) →
      writtenContents parts = concatContents parts := by
  intro parts
  induction parts with
  | nil => intro _; rfl
  | cons p rest ih =>
    intro h
    have hp : (contentOf p).isEmpty = false := h p (by simp)
    rw [show writtenContents (p :: rest) = contentOf p ++ writtenContents rest from by
      simp [writtenContents, hp]]
    rw [ih (fun q hq => h q (by simp [hq]))]
    rfl

theorem deleteWindow_getD_none :
    ∀ (parts : List (Option PartFile)) (np i : Nat), i < np →
      (deleteWindow np parts).getD i none = none := by
  intro parts
  induction parts with
  | nil => intro np i _; simp [deleteWindow, List.getD]
  | cons p rest ih =>
    intro np i hi
    cases np with
    | zero => omega
    | succ m =>
      cases i with
      | zero => simp [deleteWindow]
      | succ i' =>
        have := ih m i' (by omega)
        simpa [deleteWindow] using this

theorem finishPhase_ranges (destOk : Bool) (fsz np chunk mode : Int)
    (ranges : List (Int × Int)) (fs1 : FS) :
    (finishPhase destOk fsz np chunk mode ranges fs1).2.1 = ranges := by
  unfold finishPhase
  split
  · split <;> rfl
  · rfl

theorem inRange_iff (fsz np chunk i b : Int) :
    inRange fsz np chunk i b ↔
      (i * chunk ≤ b ∧ b ≤ (if i = np - 1 then fsz - 1 else i * chunk + chunk - 1)) :=
  Iff.rfl

theorem ranges_no_overlap (S C P : Nat) (key : (P - 1) * C ≤ S) :
    ∀ i j : Nat, i < j → j < P → ∀ b : Int,
      inRange (S : Int) (P : Int) (C : Int) (i : Int) b →
      inRange (S : Int) (P : Int) (C : Int) (j : Int) b → False := by
  intro i j hij hjP b hi hj
  rw [inRange_iff] at hi hj
  have hiP : ((i : Int)) ≠ (P : Int) - 1 := by omega
  rw [if_neg hiP] at hi
  have hmul : ((i + 1) * C : Nat) ≤ (j * C : Nat) := Nat.mul_le_mul_right C (by omega)
  have hmul2 : (((i + 1) * C : Nat) : Int) ≤ ((j * C : Nat) : Int) := by exact_mod_cast hmul
  push_cast at hmul2
  have hexp : ((i : Int) + 1) * (C : Int) = (i : Int) * C + C := by ring
  rw [hexp] at hmul2
  omega

theorem ranges_cover (S C P : Nat) (hP : 1 ≤ P) (key : (P - 1) * C ≤ S) :
    ∀ b : Int, (0 ≤ b ∧ b ≤ (S : Int) - 1) ↔
      (∃ i : Nat, i < P ∧ inRange (S : Int) (P : Int) (C : Int) (i : Int) b) := by
  intro b
  constructor
  · rintro ⟨hb0, hbS⟩
    have hbn : ((b.toNat : Nat) : Int) = b := Int.toNat_of_nonneg hb0
    have hnS : b.toNat < S := by omega
    by_cases hC0 : C = 0
    · refine ⟨P - 1, by omega, ?_, ?_⟩
      · show ((P - 1 : Nat) : Int) * (C : Int) ≤ b
        rw [hC0]
        simpa using hb0
      · show b ≤ (if ((P - 1 : Nat) : Int) = (P : Int) - 1 then (S : Int) - 1
          else ((P - 1 : Nat) : Int) * (C : Int) + (C : Int) - 1)
        rw [if_pos (by omega : ((P - 1 : Nat) : Int) = (P : Int) - 1)]
        exact hbS
    · have hCpos : 0 < C := Nat.pos_of_ne_zero hC0
      obtain ⟨q, hq⟩ : ∃ q, b.toNat / C = q := ⟨b.toNat / C, rfl⟩
      have F1 : q * C ≤ b.toNat := by
        rw [← hq]; exact Nat.div_mul_le_self b.toNat C
      have F2 : b.toNat < q * C + C := by
        rw [← hq]
        have h := Nat.div_add_mod b.toNat C
        have h2 := Nat.mod_lt b.toNat hCpos
        rw [Nat.mul_comm] at h
        omega
      by_cases hqP : q < P - 1
      · refine ⟨q, by omega, ?_, ?_⟩
        · show ((q : Nat) : Int) * (C : Int) ≤ b
          rw [← hbn]
          exact_mod_cast F1
        · show b ≤ (if ((q : Nat) : Int) = (P : Int) - 1 then (S : Int) - 1
            else ((q : Nat) : Int) * (C : Int) + (C : Int) - 1)
          rw [if_neg (by omega : ¬ ((q : Nat) : Int) = (P : Int) - 1)]
          have F2c : ((b.toNat : Nat) : Int) < ((q * C + C : Nat) : Int) := by exact_mod_cast F2
          push_cast at F2c
          omega
      · refine ⟨P - 1, by omega, ?_, ?_⟩
        · show ((P - 1 : Nat) : Int) * (C : Int) ≤ b
          have h1 : (P - 1) * C ≤ q * C := Nat.mul_le_mul_right C (by omega)
          have h2 : (P - 1) * C ≤ b.toNat := le_trans h1 F1
          have h2c : (((P - 1) * C : Nat) : Int) ≤ ((b.toNat : Nat) : Int) := by exact_mod_cast h2
          push_cast [Nat.cast_sub hP] at h2c
          omega
        · show b ≤ (if ((P - 1 : Nat) : Int) = (P : Int) - 1 then (S : Int) - 1
            else ((P - 1 : Nat) : Int) * (C : Int) + (C : Int) - 1)
          rw [if_pos (by omega : ((P - 1 : Nat) : Int) = (P : Int) - 1)]
          exact hbS
  · rintro ⟨i, hiP, hr⟩
    rw [inRange_iff] at hr
    rcases hr with ⟨hstart, hend⟩
    constructor
    · have h0 : (0 : Int) ≤ (i : Int) * (C : Int) := by positivity
      omega
    · by_cases hiPeq : ((i : Int)) = (P : Int) - 1
      · rw [if_pos hiPeq] at hend
        exact hend
      · rw [if_neg hiPeq] at hend
        have hilt : i < P - 1 := by omega
        have hm1 : (i + 1) * C ≤ (P - 1) * C := Nat.mul_le_mul_right C (by omega)
        have hm2 : (i + 1) * C ≤ S := le_trans hm1 key
        have hm2c : (((i + 1) * C : Nat) : Int) ≤ ((S : Nat) : Int) := by exact_mod_cast hm2
        push_cast at hm2c
        have hexp : ((i : Int) + 1) * (C : Int) = (i : Int) * C + C := by ring
        rw [hexp] at hm2c
        omega

/-- C3: for every total size `S ≥ T` and every valid parameterization
(part count `P ≥ 1` given, so that the code computes `C = S / P`, or
chunk size `C ≥ 1` given, so that the code computes `P = S / C + 1`),
the planned inclusive byte ranges — `start_i = i*C`,
`end_i = start_i + C - 1` for `i < P-1`, `end_(P-1) = S-1` — are
pairwise disjoint, their union is exactly `[0, S-1]`, and exactly `P`
parts are produced. -/
theorem c3_partition_complete (S C P : Nat) (hP : 1 ≤ P) (hS : 1000 ≤ S)
    (hparam : C = S / P ∨ (1 ≤ C ∧ P = S / C + 1)) :
    (plan S C P).length = P ∧
    (∀ b : Int, (0 ≤ b ∧ b ≤ (S : Int) - 1) ↔
      (∃ i : Nat, i < P ∧ inRange (S : Int) (P : Int) (C : Int) (i : Int) b)) ∧
    (∀ i j : Nat, i < P → j < P → ∀ b : Int,
      inRange (S : Int) (P : Int) (C : Int) (i : Int) b →
      inRange (S : Int) (P : Int) (C : Int) (j : Int) b → i = j) := by
  have key : (P - 1) * C ≤ S := by
    rcases hparam with h | ⟨hC, hPC⟩
    · subst h
      calc (P - 1) * (S / P) ≤ P * (S / P) := Nat.mul_le_mul_right _ (Nat.sub_le P 1)
        _ ≤ S := by rw [Nat.mul_comm]; exact Nat.div_mul_le_self S P
    · have hP1 : P - 1 = S / C := by omega
      rw [hP1]
      exact Nat.div_mul_le_self S C
  refine ⟨by simp only [plan, List.length_map, List.length_range], ranges_cover S C P hP key, ?_⟩
  intro i j hiP hjP b hi hj
  rcases lt_trichotomy i j with h | h | h
  · exact absurd (ranges_no_overlap S C P key i j h hjP b hi hj) (by simp)
  · exact h
  · exact absurd (ranges_no_overlap S C P key j i h hiP b hj hi) (by simp)

/-- Witness for C3 at `S = 10000000`, `P = 4`, `C = S / P = 2500000`
(spec scenario 2). -/
theorem c3_partition_complete_witness :
    (1 ≤ 4 ∧ 1000 ≤ 10000000 ∧ (2500000 = 10000000 / 4 ∨ (1 ≤ 2500000 ∧ 4 = 10000000 / 2500000 + 1))) ∧
    ((plan 10000000 2500000 4).length = 4 ∧
    (∀ b : Int, (0 ≤ b ∧ b ≤ (10000000 : Int) - 1) ↔
      (∃ i : Nat, i < 4 ∧ inRange ((10000000 : Nat) : Int) ((4 : Nat) : Int) ((2500000 : Nat) : Int) (i : Int) b)) ∧
    (∀ i j : Nat, i < 4 → j < 4 → ∀ b : Int,
      inRange ((10000000 : Nat) : Int) ((4 : Nat) : Int) ((2500000 : Nat) : Int) (i : Int) b →
      inRange ((10000000 : Nat) : Int) ((4 : Nat) : Int) ((2500000 : Nat) : Int) (j : Int) b → i = j)) :=
  ⟨⟨by norm_num, by norm_num, Or.inl (by norm_num)⟩,
   c3_partition_complete 10000000 2500000 4 (by norm_num) (by norm_num) (Or.inl (by norm_num))⟩

/-- C2 (counterexample): an attempt that completes with HTTP status 404
ends the retry loop immediately — `download` issues exactly one attempt
and leaves no file, although four more attempts (which here would
succeed with status 200) remain; the claim instead asserts that after
an attempt with status ≥ 400 "the next attempt proceeds". -/
theorem c2_counterexample :
    download (fun i => if i = 0 then AttemptResult.httpDone 404 else AttemptResult.httpDone 200)
      = (1, false) ∧
    ¬ 2 ≤ (download (fun i =>
      if i = 0 then AttemptResult.httpDone 404 else AttemptResult.httpDone 200)).1 := by
  refine ⟨rfl, ?_⟩
  decide

/-- C2 (amended): `download` issues at most `R = 5` attempts.  An
attempt whose file cannot be opened or whose transport fails deletes
the partially-written file and proceeds to the next attempt, and after
5 such failed attempts the worker gives up leaving no file at the part
path (without aborting sibling workers — the function returns
normally).  But the first attempt that completes the transfer ends the
loop regardless of the HTTP status: with status ≥ 400 the file is
deleted and no further attempt is made; with status < 400 the file is
kept. -/
theorem c2_retry_contract :
    (∀ env : Nat → AttemptResult, (download env).1 ≤ NUM_TRY_DOWNLOAD) ∧
    (∀ env : Nat → AttemptResult,
      (∀ j, j < NUM_TRY_DOWNLOAD → env j = AttemptResult.openFail ∨
        env j = AttemptResult.transportFail) →
      download env = (NUM_TRY_DOWNLOAD, false)) ∧
    (∀ (env : Nat → AttemptResult) (k : Nat) (code : Int), k < NUM_TRY_DOWNLOAD →
      (∀ j, j < k → env j = AttemptResult.openFail ∨ env j = AttemptResult.transportFail) →
      env k = AttemptResult.httpDone code →
      download env = (k + 1, if 400 ≤ code then false else true)) := by
  refine ⟨fun env => ?_, fun env h => ?_, fun env k code hk hfail hhttp => ?_⟩
  · simpa [download] using downloadGo_fst_le env NUM_TRY_DOWNLOAD 0 false
  · simpa [download] using
      downloadGo_all_fail env NUM_TRY_DOWNLOAD 0 (fun j hj1 hj2 => h j (by omega))
  · exact downloadGo_first_http env code NUM_TRY_DOWNLOAD 0 false k (by omega) (by omega)
      (fun j hj1 hj2 => hfail j hj2) hhttp

/-- Witness for C2 (amended): all-transport-failure run and a run whose
second attempt completes with status 200. -/
theorem c2_retry_contract_witness :
    (download (fun _ => AttemptResult.transportFail)).1 ≤ NUM_TRY_DOWNLOAD ∧
    download (fun _ => AttemptResult.transportFail) = (NUM_TRY_DOWNLOAD, false) ∧
    download (fun i => if i = 0 then AttemptResult.transportFail else AttemptResult.httpDone 200)
      = (1 + 1, if (400 : Int) ≤ 200 then false else true) :=
  ⟨c2_retry_contract.1 _,
   c2_retry_contract.2.1 _ (by decide),
   c2_retry_contract.2.2 _ 1 200 (by decide) (by decide) (by decide)⟩

/-- C4 (code evaluation at the failing input): with one planned part
whose file does not exist on disk, `check_files` does not return the
Missing classification — the `fs::is_empty` call throws
`std::filesystem::filesystem_error`, modelled as `Except.error`, so
the error branch printing "is not found" never runs for an absent
file. -/
theorem c4_missing_part_throws :
    check_files [none] 1000000 1000 = Except.error () := rfl

/-- C5 (counterexample): both parts can be opened and `merge_files`
reports success, yet the destination is empty rather than the
concatenation `[3]`: the empty part 0 makes
`output_file << part_file.rdbuf()` insert zero characters, which sets
`failbit` on the destination stream, so part 1's bytes are silently
dropped while `normal_exit` stays true. -/
theorem c5_counterexample :
    merge_files true [some ⟨[], true⟩, some ⟨[3], true⟩] = (true, some []) ∧
    (merge_files true [some ⟨[], true⟩, some ⟨[3], true⟩]).2
      ≠ some (concatContents [some ⟨[], true⟩, some ⟨[3], true⟩]) :=
  ⟨rfl, by decide⟩

/-- C5 (amended): `merge_files` walks the parts strictly in index
order 0..P-1.  If every part opens, it returns success, but the
destination holds the concatenation of the parts' contents only up to
(excluding) the first empty part — inserting an empty part's stream
buffer writes nothing and sets `failbit`, silently dropping every
later part's bytes; when no part is empty the destination is exactly
`data_0 ++ ... ++ data_(P-1)`.  If some part cannot be opened, the
merge aborts immediately — independent of anything after the failing
part, which is never read — returns failure, and leaves the
destination holding the bytes written before the abort. -/
theorem c5_merger_contract (parts : List (Option PartFile)) :
    ((∀ p ∈ parts, canOpen p = true) →
      merge_files true parts = (true, some (writtenContents parts))) ∧
    ((∀ p ∈ parts, canOpen p = true) → (∀ p ∈ parts, (contentOf p).isEmpty = false) →
      merge_files true parts = (true, some (concatContents parts))) ∧
    (∀ (pre : List (Option PartFile)) (bad : Option PartFile) (rest : List (Option PartFile)),
      parts = pre ++ bad :: rest →
      (∀ p ∈ pre, canOpen p = true) → canOpen bad = false →
      merge_files true parts = (false, some (writtenContents pre))) := by
  refine ⟨fun h => ?_, fun h hne => ?_, fun pre bad rest hparts hpre hbad => ?_⟩
  · have hm := mergeGo_all_open parts [] h
    simp [merge_files, hm]
  · have hm := mergeGo_all_open parts [] h
    rw [writtenContents_of_no_empty parts hne] at hm
    simp [merge_files, hm]
  · subst hparts
    have hm := mergeGo_first_bad pre bad rest [] hpre hbad
    simp [merge_files, hm]

/-- Witness for C5 (amended): a merge whose first part is empty
(success, truncated destination); a merge of nonempty parts (success,
exact concatenation); a merge that aborts at the absent middle part
with only part 0 written. -/
theorem c5_merger_contract_witness :
    merge_files true [some ⟨[], true⟩, some ⟨[3], true⟩]
      = (true, some (writtenContents [some ⟨[], true⟩, some ⟨[3], true⟩])) ∧
    merge_files true [some ⟨[1, 2], true⟩, some ⟨[3], true⟩]
      = (true, some (concatContents [some ⟨[1, 2], true⟩, some ⟨[3], true⟩])) ∧
    merge_files true [some ⟨[1, 2], true⟩, none, some ⟨[3], true⟩]
      = (false, some (writtenContents [some ⟨[1, 2], true⟩])) :=
  ⟨(c5_merger_contract _).1 (by decide),
   (c5_merger_contract _).2.1 (by decide) (by decide),
   (c5_merger_contract _).2.2 [some ⟨[1, 2], true⟩] none [some ⟨[3], true⟩] rfl
     (by decide) (by decide)⟩

/-- C1 (counterexample): part 0 is empty (the branch printing "is not
found" fires and sets the flag to Missing = 0), part 1 is fine, and the
expected chunk size is 2000000, so the size test of part 0 itself
(0 + 1E6 < 2000000) immediately overwrites the flag with
PresentButUndersized = -1.  `check_files` returns -1, not 0, and the
main block then attempts the merge, which reports success and exits 0
— the destination is created (as a zero-byte file: the empty part 0
sets `failbit`, dropping part 1's bytes) and the parts are kept.  This
contradicts the claim that any missing/empty part forces the Missing
verdict with the run failing and no merge attempted. -/
theorem c1_counterexample :
    check_files [some 0, some 5] 2000000 5 = Except.ok (-1) ∧
    checkMergeRemove true 2 2000000 5 ⟨[some ⟨[], true⟩, some ⟨[1, 2, 3, 4, 5], true⟩], none⟩
      = Except.ok (⟨[some ⟨[], true⟩, some ⟨[1, 2, 3, 4, 5], true⟩], some []⟩, true) :=
  ⟨rfl, rfl⟩

/-- C1 (amended): the two flag assignments of `check_files` are applied
in program order with the later one winning.  For a part set in which
every file exists: when no part is undersized the verdict is
Missing (0) exactly when some part is empty, else Complete (1); an
undersized part whose index is ≥ the index of every empty part
overrides Missing, yielding PresentButUndersized (-1); the verdict can
be -1 only when some part is undersized; and a Missing (0) verdict
makes the main block skip the merge and fail, leaving the parts in
place and no destination. -/
theorem c1_verification_precedence :
    (∀ (sizes : List Nat) (chunk last : Int),
      (∀ k, k < sizes.length → ¬ underAt sizes.length chunk last sizes k) →
      check_files (sizes.map some) chunk last = Except.ok (if 0 ∈ sizes then 0 else 1)) ∧
    (∀ (sizes : List Nat) (chunk last : Int),
      (∃ j, j < sizes.length ∧ underAt sizes.length chunk last sizes j ∧
        (∀ k, k < sizes.length → sizes.getD k 0 = 0 → k ≤ j)) →
      check_files (sizes.map some) chunk last = Except.ok (-1)) ∧
    (∀ (sizes : List Nat) (chunk last : Int),
      (∀ k, k < sizes.length → ¬ underAt sizes.length chunk last sizes k) →
      check_files (sizes.map some) chunk last ≠ Except.ok (-1)) ∧
    (∀ (destOk : Bool) (np : Nat) (chunk last : Int) (fs : FS),
      check_files (sizesOf np fs) chunk last = Except.ok 0 →
      checkMergeRemove destOk np chunk last fs = Except.ok (⟨fs.parts, none⟩, false)) := by
  have base : ∀ (sizes : List Nat) (chunk last : Int),
      (∀ k, k < sizes.length → ¬ underAt sizes.length chunk last sizes k) →
      check_files (sizes.map some) chunk last = Except.ok (if 0 ∈ sizes then 0 else 1) := by
    intro sizes chunk last h
    unfold check_files
    rw [List.length_map, checkGo_map_some]
    rw [verdictGo_no_under chunk last sizes.length sizes 0 1 (fun k hk => by
      have := h k hk
      simpa [underAt] using this)]
  refine ⟨base, fun sizes chunk last h => ?_, fun sizes chunk last h => ?_,
    fun destOk np chunk last fs h => ?_⟩
  · unfold check_files
    rw [List.length_map, checkGo_map_some]
    rcases h with ⟨j, hjlen, hju, hemp⟩
    rw [verdictGo_under_last chunk last sizes.length sizes 0 1
      ⟨j, hjlen, by simpa [underAt] using hju, hemp⟩]
  · rw [base sizes chunk last h]
    intro hcon
    simp only [Except.ok.injEq] at hcon
    split at hcon <;> omega
  · simp [checkMergeRemove, h]

/-- Witness for C1 (amended), exercising all four conjuncts at concrete
part sets. -/
theorem c1_verification_precedence_witness :
    ((∀ k, k < [5, 5].length → ¬ underAt [5, 5].length 3 3 [5, 5] k) ∧
      check_files ([5, 5].map some) 3 3 = Except.ok (if 0 ∈ [5, 5] then 0 else 1)) ∧
    ((∃ j, j < [0, 5].length ∧ underAt [0, 5].length 2000000 5 [0, 5] j ∧
        (∀ k, k < [0, 5].length → [0, 5].getD k 0 = 0 → k ≤ j)) ∧
      check_files ([0, 5].map some) 2000000 5 = Except.ok (-1)) ∧
    ((∀ k, k < [7].length → ¬ underAt [7].length 3 3 [7] k) ∧
      check_files ([7].map some) 3 3 ≠ Except.ok (-1)) ∧
    (check_files (sizesOf 1 ⟨[some ⟨[], true⟩], none⟩) 3 3 = Except.ok 0 ∧
      checkMergeRemove true 1 3 3 ⟨[some ⟨[], true⟩], none⟩
        = Except.ok (⟨[some ⟨[], true⟩], none⟩, false)) :=
  ⟨⟨by decide, c1_verification_precedence.1 [5, 5] 3 3 (by decide)⟩,
   ⟨by decide, c1_verification_precedence.2.1 [0, 5] 2000000 5 (by decide)⟩,
   ⟨by decide, c1_verification_precedence.2.2.1 [7] 3 3 (by decide)⟩,
   ⟨rfl, c1_verification_precedence.2.2.2 true 1 3 3 ⟨[some ⟨[], true⟩], none⟩ rfl⟩⟩

/-- C6: cleanup policy of the check/merge/remove block.  After a
Complete (1) verdict and a successful merge every part file in the
window is deleted; after a PresentButUndersized (-1) verdict and a
successful merge the part files are kept unchanged; after any merge
failure the (partial) destination file is deleted and the part files
remain. -/
theorem c6_cleanup_policy (np : Nat) (chunk last : Int) (fs : FS) (destOk : Bool) :
    (check_files (sizesOf np fs) chunk last = Except.ok 1 →
      (merge_files destOk (partsWindow np fs.parts)).1 = true →
      (checkMergeRemove destOk np chunk last fs
        = Except.ok (⟨deleteWindow np fs.parts,
            (merge_files destOk (partsWindow np fs.parts)).2⟩, true) ∧
       (∀ i, i < np → (deleteWindow np fs.parts).getD i none = none))) ∧
    (check_files (sizesOf np fs) chunk last = Except.ok (-1) →
      (merge_files destOk (partsWindow np fs.parts)).1 = true →
      checkMergeRemove destOk np chunk last fs
        = Except.ok (⟨fs.parts, (merge_files destOk (partsWindow np fs.parts)).2⟩, true)) ∧
    (∀ s : Int, check_files (sizesOf np fs) chunk last = Except.ok s → s ≠ 0 →
      (merge_files destOk (partsWindow np fs.parts)).1 = false →
      checkMergeRemove destOk np chunk last fs = Except.ok (⟨fs.parts, none⟩, false)) := by
  refine ⟨fun h1 h2 => ⟨?_, fun i hi => deleteWindow_getD_none fs.parts np i hi⟩,
    fun h1 h2 => ?_, fun s h1 hs h2 => ?_⟩
  · simp [checkMergeRemove, h1, h2]
  · simp [checkMergeRemove, h1, h2]
  · simp [checkMergeRemove, h1, hs, h2]

/-- Witness for C6 at three one-part configurations: exact part →
parts deleted; undersized part → parts kept; destination cannot be
created → merge failure, no destination, parts kept. -/
theorem c6_cleanup_policy_witness :
    (check_files (sizesOf 1 ⟨[some ⟨[9, 9], true⟩], none⟩) 3 3 = Except.ok 1 ∧
      (merge_files true (partsWindow 1 [some ⟨[9, 9], true⟩])).1 = true ∧
      (checkMergeRemove true 1 3 3 ⟨[some ⟨[9, 9], true⟩], none⟩
        = Except.ok (⟨deleteWindow 1 [some ⟨[9, 9], true⟩],
            (merge_files true (partsWindow 1 [some ⟨[9, 9], true⟩])).2⟩, true) ∧
       (∀ i, i < 1 → (deleteWindow 1 [some ⟨[9, 9], true⟩]).getD i none = none))) ∧
    (check_files (sizesOf 1 ⟨[some ⟨[9], true⟩], none⟩) 3 2000000 = Except.ok (-1) ∧
      checkMergeRemove true 1 3 2000000 ⟨[some ⟨[9], true⟩], none⟩
        = Except.ok (⟨[some ⟨[9], true⟩],
            (merge_files true (partsWindow 1 [some ⟨[9], true⟩])).2⟩, true)) ∧
    (checkMergeRemove false 1 3 3 ⟨[some ⟨[9, 9], true⟩], none⟩
      = Except.ok (⟨[some ⟨[9, 9], true⟩], none⟩, false)) :=
  ⟨⟨rfl, rfl, (c6_cleanup_policy 1 3 3 ⟨[some ⟨[9, 9], true⟩], none⟩ true).1 rfl rfl⟩,
   ⟨rfl, (c6_cleanup_policy 1 3 2000000 ⟨[some ⟨[9], true⟩], none⟩ true).2.1 rfl rfl⟩,
   (c6_cleanup_policy 1 3 3 ⟨[some ⟨[9, 9], true⟩], none⟩ false).2.2 1 rfl (by decide) rfl⟩

/-- C7 (counterexample): two merge-only runs (`mode0 = 2`) over the
same eight perfectly sized part files, differing only in the probe
result.  With a failed probe (`get_file_size` returned -1) the run
aborts with `probeFail` and never verifies or merges; with probe
result 4000 it finishes successfully.  So a merge-only run does not
skip the remote size probe, and its verify+merge outcome depends on
the probe result, contradicting the claim. -/
theorem c7_counterexample :
    (mainPipeline (fun _ _ => none) true 8 (-1) (-1) 2 (-1) (-1)
      ⟨List.replicate 8 (some ⟨[1], true⟩), none⟩).1 = RunOutcome.probeFail ∧
    (mainPipeline (fun _ _ => none) true 8 (-1) (-1) 2 (-1) 4000
      ⟨List.replicate 8 (some ⟨[1], true⟩), none⟩).1 = RunOutcome.finished true :=
  ⟨rfl, rfl⟩

/-- C7 (amended): a merge-only run (`mode0 = 2`) still performs the
remote size probe first: a probe result ≤ 0 aborts the run before any
verification or merge; for a probed size ≥ the 1000-byte threshold the
run issues no ranged GET and its result is exactly that of the
check/merge/remove block over the existing part files, with the
expected chunk and last-part sizes derived from the probed size. -/
theorem c7_merge_only :
    (∀ (net : Int → Int → Option PartFile) (destOk : Bool) (nth np0 cs0 pi fsz : Int)
      (fs : FS), fsz ≤ 0 →
      mainPipeline net destOk nth np0 cs0 2 pi fsz fs = (RunOutcome.probeFail, [], fs)) ∧
    (∀ (net : Int → Int → Option PartFile) (destOk : Bool) (nth np0 cs0 pi fsz : Int)
      (fs : FS), 1000 ≤ fsz → pi ≤ effNumPart fsz nth np0 cs0 - 1 →
      mainPipeline net destOk nth np0 cs0 2 pi fsz fs =
        (match checkMergeRemove destOk (effNumPart fsz nth np0 cs0).toNat
            (effChunkSize fsz nth np0 cs0)
            (fsz - (effNumPart fsz nth np0 cs0 - 1) * effChunkSize fsz nth np0 cs0) fs with
          | Except.error _ => RunOutcome.crashed
          | Except.ok p => RunOutcome.finished p.2,
         [],
         match checkMergeRemove destOk (effNumPart fsz nth np0 cs0).toNat
            (effChunkSize fsz nth np0 cs0)
            (fsz - (effNumPart fsz nth np0 cs0 - 1) * effChunkSize fsz nth np0 cs0) fs with
          | Except.error _ => fs
          | Except.ok p => p.1)) := by
  constructor
  · intro net destOk nth np0 cs0 pi fsz fs h
    unfold mainPipeline
    rw [if_pos h]
  · intro net destOk nth np0 cs0 pi fsz fs h1000 hpi
    have hmode : thresholdMode fsz 2 = 2 := by
      simp only [thresholdMode, MIN_FILE_SIZE_FOR_PARALLEL]
      rw [if_neg (by omega)]
    unfold mainPipeline
    rw [if_neg (by omega : ¬ fsz ≤ 0),
      if_neg (by omega : ¬ pi > effNumPart fsz nth np0 cs0 - 1), hmode]
    cases hc : checkMergeRemove destOk (effNumPart fsz nth np0 cs0).toNat
        (effChunkSize fsz nth np0 cs0)
        (fsz - (effNumPart fsz nth np0 cs0 - 1) * effChunkSize fsz nth np0 cs0) fs with
    | error e => simp [finishPhase, downloadRanges, downloadFS, hc]
    | ok p => simp [finishPhase, downloadRanges, downloadFS, hc]

/-- Witness for C7 (amended): aborted probe at size -1; merge-only run
at probed size 4000 over eight good part files. -/
theorem c7_merge_only_witness :
    mainPipeline (fun _ _ => none) true 8 (-1) (-1) 2 (-1) (-1)
      ⟨List.replicate 8 (some ⟨[2], true⟩), none⟩
      = (RunOutcome.probeFail, [],
         (⟨List.replicate 8 (some ⟨[2], true⟩), none⟩ : FS)) ∧
    mainPipeline (fun _ _ => none) true 8 (-1) (-1) 2 (-1) 4000
      ⟨List.replicate 8 (some ⟨[2], true⟩), none⟩ =
      (match checkMergeRemove true (effNumPart 4000 8 (-1) (-1)).toNat
          (effChunkSize 4000 8 (-1) (-1))
          (4000 - (effNumPart 4000 8 (-1) (-1) - 1) * effChunkSize 4000 8 (-1) (-1))
          (⟨List.replicate 8 (some ⟨[2], true⟩), none⟩ : FS) with
        | Except.error _ => RunOutcome.crashed
        | Except.ok p => RunOutcome.finished p.2,
       [],
       match checkMergeRemove true (effNumPart 4000 8 (-1) (-1)).toNat
          (effChunkSize 4000 8 (-1) (-1))
          (4000 - (effNumPart 4000 8 (-1) (-1) - 1) * effChunkSize 4000 8 (-1) (-1))
          (⟨List.replicate 8 (some ⟨[2], true⟩), none⟩ : FS) with
        | Except.error _ => (⟨List.replicate 8 (some ⟨[2], true⟩), none⟩ : FS)
        | Except.ok p => p.1) :=
  ⟨c7_merge_only.1 (fun _ _ => none) true 8 (-1) (-1) (-1) (-1)
      ⟨List.replicate 8 (some ⟨[2], true⟩), none⟩ (by decide),
   c7_merge_only.2 (fun _ _ => none) true 8 (-1) (-1) (-1) 4000
      ⟨List.replicate 8 (some ⟨[2], true⟩), none⟩ (by decide) (by decide)⟩

/-- C8 (counterexample): with probed size 1000 and `-np 200`, the
computed chunk size is `1000 / 200 = 5 < 10`, yet no
InvalidSplitParameters failure occurs — the run proceeds to issue all
200 ranged downloads, contradicting the claim that such a run aborts
before any download. -/
theorem c8_counterexample :
    effChunkSize 1000 8 200 (-1) = 5 ∧ (5 : Int) < 10 ∧
    (mainPipeline (fun _ _ => none) true 8 200 (-1) 0 (-1) 1000 ⟨[], none⟩).2.1.length
      = 200 :=
  ⟨rfl, by decide, rfl⟩

/-- C8 (amended): the program defines no InvalidSplitParameters
failure.  A zero part-count input is replaced by the use-default
sentinel at parse time with a warning; a chunk-size input below 10 is
discarded with a warning; neither aborts the run.  The chunk size
computed at lines 444-454 is never checked against the 10-byte floor:
a full-download run issues exactly its `P` ranged GETs regardless of
the computed chunk size. -/
theorem c8_invalid_split :
    (∀ v : Int, v.natAbs = 0 → parseNumPartOpt v = (-1, -1)) ∧
    (∀ v : Int, (v.natAbs : Int) < 10 → parseChunkSizeOpt v = (-1, -1)) ∧
    (∀ (net : Int → Int → Option PartFile) (destOk : Bool) (nth np0 cs0 pi fsz : Int)
      (fs : FS), 1000 ≤ fsz → pi ≤ effNumPart fsz nth np0 cs0 - 1 →
      ((mainPipeline net destOk nth np0 cs0 0 pi fsz fs).2.1).length
        = (effNumPart fsz nth np0 cs0).toNat) := by
  refine ⟨fun v h => ?_, fun v h => ?_, fun net destOk nth np0 cs0 pi fsz fs h1000 hpi => ?_⟩
  · simp [parseNumPartOpt, h]
  · simp only [parseChunkSizeOpt, if_pos h]
  · have hmode : thresholdMode fsz 0 = 0 := by
      simp only [thresholdMode, MIN_FILE_SIZE_FOR_PARALLEL]
      rw [if_neg (by omega)]
    unfold mainPipeline
    rw [if_neg (by omega : ¬ fsz ≤ 0),
      if_neg (by omega : ¬ pi > effNumPart fsz nth np0 cs0 - 1),
      finishPhase_ranges, hmode]
    simp [downloadRanges]

/-- Witness for C8 (amended): `-np 0` replaced by the default sentinel,
`-cs 5` discarded, and the 200-part run with computed chunk size 5
issuing 200 downloads. -/
theorem c8_invalid_split_witness :
    parseNumPartOpt 0 = (-1, -1) ∧
    parseChunkSizeOpt 5 = (-1, -1) ∧
    ((mainPipeline (fun _ _ => none) true 8 200 (-1) 0 (-1) 1000 ⟨[], none⟩).2.1).length
      = (effNumPart 1000 8 200 (-1)).toNat :=
  ⟨c8_invalid_split.1 0 (by decide),
   c8_invalid_split.2.1 5 (by decide),
   c8_invalid_split.2.2 (fun _ _ => none) true 8 200 (-1) (-1) 1000 ⟨[], none⟩
     (by decide) (by decide)⟩

/-- C9: for a probed total size `1 ≤ S < 1000` (below the
`MIN_FILE_SIZE_FOR_PARALLEL` threshold), the planner is forced to a
single part regardless of any part-count or chunk-size inputs, and the
run downloads the whole resource as the single range `[0, S-1]`. -/
theorem c9_below_threshold :
    ∀ (net : Int → Int → Option PartFile) (destOk : Bool) (nth np0 cs0 mode0 pi fsz : Int)
      (fs : FS), 1 ≤ fsz → fsz < 1000 → pi ≤ 0 →
      effNumPart fsz nth np0 cs0 = 1 ∧
      (mainPipeline net destOk nth np0 cs0 mode0 pi fsz fs).2.1 = [(0, fsz - 1)] := by
  intro net destOk nth np0 cs0 mode0 pi fsz fs h1 h2 h3
  have hnp : effNumPart fsz nth np0 cs0 = 1 := by
    simp only [effNumPart, thresholdNp, thresholdCs, MIN_FILE_SIZE_FOR_PARALLEL, splitNp]
    rw [if_pos (by omega : fsz < 1000), if_pos (by omega : fsz < 1000)]
    norm_num
  refine ⟨hnp, ?_⟩
  have hmode : thresholdMode fsz mode0 = -1 := by
    simp only [thresholdMode, MIN_FILE_SIZE_FOR_PARALLEL]
    rw [if_pos (by omega)]
  unfold mainPipeline
  rw [if_neg (by omega : ¬ fsz ≤ 0),
    if_neg (by rw [hnp]; omega : ¬ pi > effNumPart fsz nth np0 cs0 - 1),
    finishPhase_ranges, hmode]
  simp [downloadRanges]

/-- Witness for C9 at `S = 500` (spec scenario 1) with `-np 4` and
`-nth 8` supplied. -/
theorem c9_below_threshold_witness :
    effNumPart 500 8 4 (-1) = 1 ∧
    (mainPipeline (fun _ _ => none) true 8 4 (-1) 0 (-1) 500 ⟨[], none⟩).2.1
      = [(0, (500 : Int) - 1)] :=
  c9_below_threshold (fun _ _ => none) true 8 4 (-1) 0 (-1) 500 ⟨[], none⟩
    (by decide) (by decide) (by decide)

/-- C10: the requested part index is validated against the computed
part count after planning — any index strictly greater than `P - 1`
makes the run abort with the invalid-index error (non-zero exit)
before issuing any download; and the `-s` parse takes the absolute
value of its argument, so a negative index can never reach the
download. -/
theorem c10_single_part_index :
    (∀ (net : Int → Int → Option PartFile) (destOk : Bool) (nth np0 cs0 mode0 pi fsz : Int)
      (fs : FS), 0 < fsz → pi > effNumPart fsz nth np0 cs0 - 1 →
      (mainPipeline net destOk nth np0 cs0 mode0 pi fsz fs).1 = RunOutcome.invalidIndex ∧
      (mainPipeline net destOk nth np0 cs0 mode0 pi fsz fs).2.1 = []) ∧
    (∀ v : Int, 0 ≤ parseSinglePart v) := by
  refine ⟨fun net destOk nth np0 cs0 mode0 pi fsz fs h1 h2 => ?_, fun v => ?_⟩
  · unfold mainPipeline
    rw [if_neg (by omega : ¬ fsz ≤ 0), if_pos h2]
    exact ⟨rfl, rfl⟩
  · simp [parseSinglePart]

/-- Witness for C10: probed size 10000 plans 4 parts; `-s 10` aborts
with the invalid-index error and no download. -/
theorem c10_single_part_index_witness :
    ((mainPipeline (fun _ _ => none) true 8 4 (-1) 1 10 10000 ⟨[], none⟩).1
        = RunOutcome.invalidIndex ∧
      (mainPipeline (fun _ _ => none) true 8 4 (-1) 1 10 10000 ⟨[], none⟩).2.1 = []) ∧
    0 ≤ parseSinglePart (-7) :=
  ⟨c10_single_part_index.1 (fun _ _ => none) true 8 4 (-1) 1 10 10000 ⟨[], none⟩
      (by decide) (by decide),
   c10_single_part_index.2 (-7)⟩

end CoCurl
